import Mathlib

/-!
Verification development for the go-turing repository: a single-tape Turing
machine engine (package `turing`: `step`, `ExecCtx`, `Program.Validate`,
`NewMachine`) and a `.tur` text-format reader (package `filereader`:
`ParseTransition`, `ReadCtx`).

Go maps (`map[int]rune`, `map[string]...`, `map[rune]...`) are embedded as
association lists with update-or-append insertion, so every definition is
executable.  Where a Go map's unspecified iteration order is observable
(the direction table of `ParseTransition`), the embedding is parameterized
by the iteration order and the set of possible orders is made explicit.
Go reference (aliasing) semantics of the tape map, which matters for the
frame properties of `ExecCtx`, is embedded separately with an explicit
heap of tapes and numeric references.
-/

namespace GoTuring

/-- Error kinds of the repository.  Each Go sentinel error (`ErrStartStateEmpty`,
`ErrParseTransition`, ...) is one constructor; wrapped message text is ignored
since callers branch with `errors.Is` on the sentinel.  `panicIndexOutOfRange`
is not a returned Go error: it models the runtime panic raised by an
out-of-bounds slice index (`states[stateIndex]` in `ReadCtx`). -/
inductive Err where
  | startStateEmpty
  | terminalStateEmpty
  | invalidMaxTapeLength
  | invalidMoveDirection
  | stateNotFound
  | unexpectedSymbol
  | transitionNotFound
  | infiniteLoop
  | stepsExceeded
  | tapeOver
  | parseTransition
  | noTransitions
  | panicIndexOutOfRange
deriving DecidableEq

/-- Go: `Left Direction = -1` (`Direction` is an `int`, so invalid values such
as `-2` are representable, exactly as in the source). -/
def Left : Int := -1

/-- Go: `Right Direction = 1`. -/
def Right : Int := 1

/-- Go: `Stay Direction = 0`. -/
def Stay : Int := 0

/-- Go: `type Transition struct { NextState string; Move Direction; Write rune }`. -/
structure Transition where
  nextState : String
  move : Int
  write : Char
deriving DecidableEq

/-- Association-list lookup, embedding Go map indexing `m[k]` with its
`ok` flag (`none` = key absent). -/
def alookup {α β : Type} [DecidableEq α] : List (α × β) → α → Option β
  | [], _ => none
  | (a, b) :: rest, k => if k = a then some b else alookup rest k

/-- Association-list insert, embedding Go map assignment `m[k] = v`:
replaces the value when the key is present, otherwise adds the entry.
Never removes an entry. -/
def insertA {α β : Type} [DecidableEq α] : List (α × β) → α → β → List (α × β)
  | [], k, v => [(k, v)]
  | (a, b) :: rest, k, v => if k = a then (k, v) :: rest else (a, b) :: insertA rest k v

/-- Go: `tape map[int]rune` (sparse tape). `List.length` embeds `len(tape)`,
the occupied-cell count (association lists built by `insertA` from
duplicate-free inputs stay duplicate-free, matching Go map cardinality). -/
abbrev Tape := List (Int × Char)

/-- Go: `type Program map[string]map[rune]Transition`. -/
abbrev Program := List (String × List (Char × Transition))

/-- Go: `program[state][symbol]` — nested map lookup; a missing outer key
yields a nil inner map, hence `none`. -/
def progLookup (p : Program) (s : String) (c : Char) : Option Transition :=
  match alookup p s with
  | none => none
  | some ts => alookup ts c

/-- Go: the two-line body of `ReadCtx`'s transition recording — create the
inner map if absent, then `program[state][symbol] = transition`. -/
def progInsert (p : Program) (s : String) (c : Char) (t : Transition) : Program :=
  match alookup p s with
  | none => insertA p s [(c, t)]
  | some ts => insertA p s (insertA ts c t)

/-- Go: `type Machine struct`, with the tape field's type abstracted so the
same structure serves the by-value model (`τ = Tape`) and the heap-reference
model (`τ = Nat`, a reference into an explicit heap). -/
structure MachineG (τ : Type) where
  carriage : Int
  tape : τ
  state : String
  startState : String
  terminalState : String
  alphabet : List Char
  program : Program
  steps : Nat
  maxTapeLength : Nat
  maxSteps : Nat
deriving DecidableEq

/-- Machine whose tape is held by value. -/
abbrev Machine := MachineG Tape

/-- Machine whose tape field is a reference (index) into a heap of tapes,
mirroring Go's `map` reference semantics. -/
abbrev MachineR := MachineG Nat

/-- Go: `func (m *Machine) read() rune` — the symbol under the carriage,
blank `' '` when the cell was never written. -/
def read (m : Machine) : Char :=
  match alookup m.tape m.carriage with
  | some sym => sym
  | none => ' '

/-- Go: the mutation block of `step` (lines 851-854): `m.write(t.Write);
m.move(t.Move); m.state = t.NextState; m.steps++`.  The write uses the
pre-move carriage, exactly as in the source.  `Except.ok (false, _)` of `step`
below is the successful halt, `Except.ok (true, _)` continues, `Except.error`
aborts the run. -/
def applyTransition (m : Machine) (t : Transition) : Machine :=
  { m with
    tape := insertA m.tape m.carriage t.write,
    carriage := m.carriage + t.move,
    state := t.nextState,
    steps := m.steps + 1 }

/-- Go: `func (m *Machine) step() (bool, error)` continued: halt check, read,
alphabet check, transition lookup, infinite-loop guard, mutation, tape-length
guard, step-count guard — in source order. -/
def step (m : Machine) : Except Err (Bool × Machine) :=
  if m.state = m.terminalState then
    .ok (false, m)
  else if m.alphabet.contains (read m) = true then
    match progLookup m.program m.state (read m) with
    | none => .error .transitionNotFound
    | some t =>
      if t.move = Stay ∧ t.nextState = m.state ∧ t.write = read m then
        .error .infiniteLoop
      else
        let m' : Machine := applyTransition m t
        if m.maxTapeLength ≤ m'.tape.length then
          .error .tapeOver
        else if 0 < m.maxSteps ∧ m.maxSteps ≤ m'.steps then
          .error .stepsExceeded
        else
          .ok (true, m')
  else .error .unexpectedSymbol

/-- Go: the `for ok { ok, err = m.step() }` loop of `ExecCtx` plus the final
`return m.tape, nil`.  The Go loop is not structurally terminating (with
`maxSteps = 0` a two-state cycle runs forever), so the embedding is
fuel-indexed: `none` means the loop is still running after `fuel` iterations.
No cancellation is modelled (the claims assume none fires). -/
def runFuel : Nat → Machine → Option (Except Err Tape)
  | 0, _ => none
  | fuel + 1, m =>
    match step m with
    | .error e => some (.error e)
    | .ok (false, m') => some (.ok m'.tape)
    | .ok (true, m') => runFuel fuel m'

/-- Go: `func (m *Machine) ExecCtx(ctx, carriage, input)` (lines 782-811):
reset carriage/state/steps, copy the input into a fresh tape, loop.  In this
by-value model the copy is the identity; the aliasing content of the copy and
of the final `return m.tape` lives in the heap model below. -/
def execCtx (m : Machine) (carriage : Int) (input : Tape) (fuel : Nat) :
    Option (Except Err Tape) :=
  runFuel fuel { m with carriage := carriage, state := m.startState, steps := 0, tape := input }

/-- Go: the per-entry checks in the body of `Program.Validate`'s nested loops
(lines 621-643), in source order: move direction, write symbol, terminal-state
shortcut, next-state key lookup. -/
def validateEntry (tp : Program) (a : List Char) (terminal : String) (t : Transition) :
    Option Err :=
  if ¬(t.move = Left ∨ t.move = Right ∨ t.move = Stay) then some .invalidMoveDirection
  else if ¬(a.contains t.write = true) then some .unexpectedSymbol
  else if t.nextState = terminal then none
  else if (alookup tp t.nextState).isSome then none
  else some .stateNotFound

/-- Inner loop of `Program.Validate`: first failing entry of one state's
transition row wins. -/
def validateRow (tp : Program) (a : List Char) (terminal : String) :
    List (Char × Transition) → Option Err
  | [] => none
  | (_, t) :: rest =>
    match validateEntry tp a terminal t with
    | some e => some e
    | none => validateRow tp a terminal rest

/-- Outer loop of `Program.Validate` over the states.  Go iterates the map in
unspecified order; the list order stands in for one such order (the claims
proved below do not depend on which entry is visited first). -/
def validateAux (tp : Program) (a : List Char) (terminal : String) : Program → Option Err
  | [] => none
  | (_, ts) :: rest =>
    match validateRow tp a terminal ts with
    | some e => some e
    | none => validateAux tp a terminal rest

/-- Go: `func (tp Program) Validate(alphabet, terminalState) error`;
`none` embeds the nil error. -/
def validate (tp : Program) (a : List Char) (terminal : String) : Option Err :=
  validateAux tp a terminal tp

/-- Go: `func NewMachine(alphabet, startState, terminalState, program,
maxTapeLength, maxSteps)` (lines 709-752).  The alphabet set is embedded as
the character list with the blank appended (`a[' '] = struct{}{}`); list
membership plays the role of set membership. -/
def newMachine (alphabet startState terminalState : String) (program : Program)
    (maxTapeLength maxSteps : Nat) : Except Err Machine :=
  let a := alphabet.data ++ [' ']
  if startState = "" then .error .startStateEmpty
  else if terminalState = "" then .error .terminalStateEmpty
  else if maxTapeLength = 0 then .error .invalidMaxTapeLength
  else
    match validate program a terminalState with
    | some e => .error e
    | none =>
      .ok { carriage := 0, tape := [], state := "", startState := startState,
            terminalState := terminalState, alphabet := a, program := program,
            steps := 0, maxTapeLength := maxTapeLength, maxSteps := maxSteps }

/-- Decidable equality for `Except`, so results of the embedded functions can
be compared by `decide`. -/
instance {ε α : Type} [DecidableEq ε] [DecidableEq α] : DecidableEq (Except ε α) :=
  fun a b =>
    match a, b with
    | .ok x, .ok y =>
      if h : x = y then .isTrue (by rw [h])
      else .isFalse (fun hc => h (by injection hc))
    | .ok _, .error _ => .isFalse (fun hc => by injection hc)
    | .error _, .ok _ => .isFalse (fun hc => by injection hc)
    | .error x, .error y =>
      if h : x = y then .isTrue (by rw [h])
      else .isFalse (fun hc => h (by injection hc))

/-- True on `Except.ok`, embedding "the call succeeded" (`err == nil`). -/
def isOkE {ε α : Type} : Except ε α → Bool
  | .ok _ => true
  | .error _ => false

/-- Go: `utf8.DecodeRuneInString(s)` — the first character of `s`.  Both call
sites in the source guard against the empty string, so the default is never
relevant there. -/
def firstChar (s : String) : Char := s.data.headD ' '

/-- Worker for `splitCh`: accumulates the current chunk (reversed). -/
def splitChAux (sep : Char) : List Char → List Char → List (List Char)
  | [], acc => [acc.reverse]
  | c :: cs, acc =>
    if c = sep then acc.reverse :: splitChAux sep cs []
    else splitChAux sep cs (c :: acc)

/-- Go: `strings.Split(s, string(sep))` for a one-character separator — every
occurrence separates, adjacent separators yield empty chunks, the empty string
splits to `[""]`.  (Structural implementation so that runs evaluate inside the
kernel.) -/
def splitCh (s : String) (sep : Char) : List String :=
  (splitChAux sep s.data []).map String.mk

/-- Go: `strings.ContainsRune(s, c)`. -/
def containsCh (s : String) (c : Char) : Bool := s.data.contains c

/-- Go: `strings.Join(parts, " ")`, returned as its character list (only ever
consumed by the `Q`-digit scan). -/
def joinSpaceChars : List String → List Char
  | [] => []
  | [s] => s.data
  | s :: rest => s.data ++ ' ' :: joinSpaceChars rest

/-- Go: the literal `directionTable` map of `ParseTransition`
(`'>' ↦ Right, '<' ↦ Left, '.' ↦ Stay`), as a list in declaration order. -/
def directionTable : List (Char × Int) := [('>', Right), ('<', Left), ('.', Stay)]

/-- The possible iteration orders of Go's `directionTable` map: Go specifies
no order, so any permutation of the three entries may be observed by one
`range` loop. -/
def validOrds : List (List (Char × Int)) :=
  [[('>', Right), ('<', Left), ('.', Stay)],
   [('>', Right), ('.', Stay), ('<', Left)],
   [('<', Left), ('>', Right), ('.', Stay)],
   [('<', Left), ('.', Stay), ('>', Right)],
   [('.', Stay), ('>', Right), ('<', Left)],
   [('.', Stay), ('<', Left), ('>', Right)]]

/-- Go: `func ParseTransition(field string)` (filereader.go lines 59-91),
parameterized by the iteration order `ord` of the direction table: the first
separator in `ord` contained in the field wins, the field is split on it,
exactly two non-empty parts are required, the written symbol is the first
character of the left part with `'_'` normalized to blank, and the next state
is `"Q" + right part`. -/
def parseTransitionOrd (ord : List (Char × Int)) (field : String) : Except Err Transition :=
  match ord.find? (fun p => containsCh field p.1) with
  | none => .error .parseTransition
  | some (sep, dir) =>
    let fields := splitCh field sep
    if fields.length ≠ 2 ∨ fields.headD "" = "" ∨ fields.getD 1 "" = "" then
      .error .parseTransition
    else
      let write := firstChar (fields.headD "")
      .ok { nextState := "Q" ++ fields.getD 1 "",
            move := dir,
            write := if write = '_' then ' ' else write }

/-- `ParseTransition` at the direction table's declaration order (one of the
orders Go may use; fields containing at most one separator kind parse the
same under every order, see `findSep_eq`). -/
def ParseTransition (field : String) : Except Err Transition :=
  parseTransitionOrd directionTable field

/-- Number of distinct separator characters occurring in a field.  Fields with
`sepCount ≤ 1` are parsed identically under every direction-table iteration
order. -/
def sepCount (f : String) : Nat :=
  (if containsCh f '>' then 1 else 0) + (if containsCh f '<' then 1 else 0) +
    (if containsCh f '.' then 1 else 0)

/-- Go: `regexp.MustCompile("Q\\d+").MatchString(s)` — does `s` contain a
`'Q'` immediately followed by a decimal digit somewhere? -/
def hasQdigit : List Char → Bool
  | [] => false
  | [_] => false
  | a :: b :: rest => (a = 'Q' && b.isDigit) || hasQdigit (b :: rest)

/-- Go: `ReadCtx`'s inner `for i := 1; i < len(fields); i++` loop over one
table row (lines 135-153): empty fields advance the state cursor, non-empty
fields are parsed (a parse error aborts the read) and recorded under
`states[stateIndex]` — an index that Go does **not** bounds-check, so a row
with more non-empty fields than header states panics
(`Err.panicIndexOutOfRange`). -/
def processRow (ord : List (Char × Int)) (p : Program) (states : List String)
    (symbol : Char) : Nat → List String → Except Err Program
  | _, [] => .ok p
  | idx, f :: rest =>
    if f = "" then processRow ord p states symbol (idx + 1) rest
    else
      match parseTransitionOrd ord f with
      | .error e => .error e
      | .ok t =>
        match states.get? idx with
        | none => .error .panicIndexOutOfRange
        | some st => processRow ord (progInsert p st symbol t) states symbol (idx + 1) rest

/-- State threaded through `ReadCtx`'s scanner loop: the program built so far,
the header state list, and whether the table section has been entered. -/
structure ReadState where
  program : Program
  states : List String
  inScope : Bool

/-- Go: `ReadCtx`'s `for scanner.Scan()` loop plus the trailing
`ErrNoTransitions` check (lines 105-164).  Input is the list of scanned lines;
`strings.Split(line, "\t")` is `String.splitOn`, never empty, so Go's dead
`len(fields) == 0` skip is kept for fidelity but unreachable.  Header
detection joins the tail fields with spaces and looks for a `Q`-digit token;
table rows with an empty first field are skipped.  No cancellation is
modelled. -/
def readLinesLoop (ord : List (Char × Int)) : List String → ReadState → Except Err Program
  | [], st => if st.program = [] then .error .noTransitions else .ok st.program
  | line :: rest, st =>
    let fields := splitCh line '\t'
    if fields = [] then readLinesLoop ord rest st
    else if st.inScope = false then
      if 1 < fields.length ∧ hasQdigit (joinSpaceChars fields.tail) = true then
        readLinesLoop ord rest { st with states := fields.tail, inScope := true }
      else readLinesLoop ord rest st
    else if fields.headD "" = "" then readLinesLoop ord rest st
    else
      match processRow ord st.program st.states (firstChar (fields.headD "")) 0 fields.tail with
      | .error e => .error e
      | .ok p => readLinesLoop ord rest { st with program := p }

/-- Go: `func ReadCtx(ctx, r)` parameterized by the direction-table iteration
order used by its `ParseTransition` calls. -/
def readCtxOrd (ord : List (Char × Int)) (lines : List String) : Except Err Program :=
  readLinesLoop ord lines ⟨[], [], false⟩

/-- `ReadCtx` at the direction table's declaration order. -/
def ReadCtx (lines : List String) : Except Err Program :=
  readCtxOrd directionTable lines

/-- The direction-table iteration order can only influence a read through the
fields `ReadCtx` actually hands to `ParseTransition`: the non-empty fields
after the symbol column of a table row reached in scope.  This predicate
replays the scanner's (order-independent) control flow and checks that each
such transition field contains at most one separator kind; comment lines, the
header row, symbol columns and skipped fields are unconstrained. -/
def transFieldsOK : List String → Bool → Bool
  | [], _ => true
  | line :: rest, inScope =>
    let fields := splitCh line '\t'
    if fields = [] then transFieldsOK rest inScope
    else if inScope = false then
      if 1 < fields.length ∧ hasQdigit (joinSpaceChars fields.tail) = true then
        transFieldsOK rest true
      else transFieldsOK rest false
    else if fields.headD "" = "" then transFieldsOK rest inScope
    else
      (fields.tail.all fun f => f == "" || decide (sepCount f ≤ 1)) && transFieldsOK rest inScope

/-- Heap of tape values; a tape reference (`MachineR.tape`) is an index into
it.  This embeds Go's reference semantics for `map[int]rune` values, which is
what the aliasing claims about `ExecCtx` are about. -/
abbrev Heap := List Tape

/-- Dereference a tape reference (total: unreachable dangling references read
as the empty tape). -/
def heapLookup : Heap → Nat → Option Tape
  | [], _ => none
  | t :: _, 0 => some t
  | _ :: h, n + 1 => heapLookup h n

/-- In-place update of the tape a reference points to (no-op on a dangling
reference, which never occurs in the runs below). -/
def heapSet : Heap → Nat → Tape → Heap
  | [], _, _ => []
  | _ :: h, 0, v => v :: h
  | t :: h, n + 1, v => t :: heapSet h n v

/-- Go: `func (m *Machine) step()` as the receiver sees it: the method
mutates the machine in place and returns `(bool, error)`, and on a `TapeOver`
or `StepsExceeded` error the write, move, state change and step increment
have already happened (lines 851-858 precede the guards).  This variant keeps
the mutated receiver in every outcome and drives the heap model below;
`step` above is the same function with the receiver state projected away on
errors, which is all a caller of `ExecCtx` can observe of it
(see `step_eq_stepM`). -/
def stepM (m : Machine) : Except Err Bool × Machine :=
  if m.state = m.terminalState then (.ok false, m)
  else if m.alphabet.contains (read m) = true then
    match progLookup m.program m.state (read m) with
    | none => (.error .transitionNotFound, m)
    | some t =>
      if t.move = Stay ∧ t.nextState = m.state ∧ t.write = read m then
        (.error .infiniteLoop, m)
      else
        let m' : Machine := applyTransition m t
        if m.maxTapeLength ≤ m'.tape.length then (.error .tapeOver, m')
        else if 0 < m.maxSteps ∧ m.maxSteps ≤ m'.steps then (.error .stepsExceeded, m')
        else (.ok true, m')
  else (.error .unexpectedSymbol, m)

/-- `stepM` in the heap model: dereference the machine's tape, run the step,
store the (possibly written-to) tape back through the same reference — also
on errors, since Go's failing guards fire only after the write has mutated
the tape map in place. -/
def stepR (h : Heap) (m : MachineR) : Except Err Bool × MachineR × Heap :=
  let mv : Machine := { m with tape := (heapLookup h m.tape).getD [] }
  let r := stepM mv
  (r.1,
   { m with carriage := r.2.carriage, state := r.2.state, steps := r.2.steps },
   heapSet h m.tape r.2.tape)

/-- The heap-model execution loop.  On halt it returns Go's
`return m.tape, nil` literally: the result is the machine's tape *reference*.
On error Go returns `(nil, err)`; the machine and the heap are carried
alongside the error here so that the effect of a failing run on the caller's
mappings stays observable. -/
def loopR : Nat → Heap → MachineR → Option (Except Err Nat × MachineR × Heap)
  | 0, _, _ => none
  | fuel + 1, h, m =>
    match stepR h m with
    | (.error e, m', h') => some (.error e, m', h')
    | (.ok false, m', h') => some (.ok m'.tape, m', h')
    | (.ok true, m', h') => loopR fuel h' m'

/-- Go: `ExecCtx` (lines 782-811) in the heap model: allocate a fresh tape
holding a copy of the input map's value, point `m.tape` at it, run the loop.
On success the returned value is the reference `m.tape` — the same mapping the
machine's tape field still holds. -/
def execCtxR (h : Heap) (m : MachineR) (carriage : Int) (inputRef : Nat) (fuel : Nat) :
    Option (Except Err Nat × MachineR × Heap) :=
  let fresh := h.length
  let h' := h ++ [(heapLookup h inputRef).getD []]
  loopR fuel h' { m with carriage := carriage, state := m.startState, steps := 0, tape := fresh }

/-- The left-infinite-blank program `{Q1: {' ': (Q1, Left, ' ')}}` of the
limit-guard tests. -/
def leftProg : Program := [("Q1", [(' ', ⟨"Q1", Left, ' '⟩)])]

/-- The same program with move `Stay`: the one-step no-op self-transition. -/
def stayProg : Program := [("Q1", [(' ', ⟨"Q1", Stay, ' '⟩)])]

/-- The increment program `{Q1: {' ': (Q0, Stay, '1'), '1': (Q1, Left, '1')}}`. -/
def incProg : Program := [("Q1", [(' ', ⟨"Q0", Stay, '1'⟩), ('1', ⟨"Q1", Left, '1'⟩)])]

/-- The machine `NewMachine("", "Q1", "Q0", leftProg, 10000, 10)` constructs. -/
def leftMachineA : Machine :=
  { carriage := 0, tape := [], state := "", startState := "Q1", terminalState := "Q0",
    alphabet := [' '], program := leftProg, steps := 0, maxTapeLength := 10000, maxSteps := 10 }

/-- The machine `NewMachine("", "Q1", "Q0", leftProg, 10, 10000)` constructs. -/
def leftMachineB : Machine :=
  { carriage := 0, tape := [], state := "", startState := "Q1", terminalState := "Q0",
    alphabet := [' '], program := leftProg, steps := 0, maxTapeLength := 10, maxSteps := 10000 }

/-- The machine `NewMachine("", "Q1", "Q0", stayProg, 10000, 0)` constructs
(`maxSteps = 0` disables the step limit). -/
def stayMachineC : Machine :=
  { carriage := 0, tape := [], state := "", startState := "Q1", terminalState := "Q0",
    alphabet := [' '], program := stayProg, steps := 0, maxTapeLength := 10000, maxSteps := 0 }

/-- The machine `NewMachine("1", "Q1", "Q0", incProg, 20, 10)` constructs. -/
def incMachine : Machine :=
  { carriage := 0, tape := [], state := "", startState := "Q1", terminalState := "Q0",
    alphabet := ['1', ' '], program := incProg, steps := 0, maxTapeLength := 20, maxSteps := 10 }

/-- Unary input for `n`: `n + 1` ones at cells `0..n`. -/
def inputOnes (n : Nat) : Tape := (List.range (n + 1)).map (fun k => ((k : Int), '1'))

/-- Final tape of the increment machine on `inputOnes n`: the input cells plus
a one written at cell `-1` — `n + 2` ones. -/
def c6Expected (n : Nat) : Tape := inputOnes n ++ [(-1, '1')]

/-- The increment machine in the heap model (its tape field is a reference;
the zero value is irrelevant since `execCtxR` rebinds it). -/
def incMachineR : MachineR :=
  { carriage := 0, tape := 0, state := "", startState := "Q1", terminalState := "Q0",
    alphabet := ['1', ' '], program := incProg, steps := 0, maxTapeLength := 20, maxSteps := 10 }

/-- Initial heap for the aliasing run: the caller's input mapping `{0: '1'}`
lives at reference 0. -/
def c1Heap : Heap := [[((0 : Int), '1')]]

/-- The machine value after the aliasing run: halted in `Q0` with its tape
field still pointing at reference 1 — the very reference `ExecCtx` returned. -/
def c1FinalMachine : MachineR :=
  { carriage := -1, tape := 1, state := "Q0", startState := "Q1", terminalState := "Q0",
    alphabet := ['1', ' '], program := incProg, steps := 2, maxTapeLength := 20, maxSteps := 10 }

/-- The heap after the aliasing run: the caller's mapping at reference 0 is
untouched; the fresh tape at reference 1 holds the result. -/
def c1FinalHeap : Heap := [[((0 : Int), '1')], [((0 : Int), '1'), ((-1 : Int), '1')]]

/-- The left-infinite-blank machine (`maxTapeLength = 10`) in the heap model,
used for a run that fails with `TapeOver`. -/
def leftMachineBR : MachineR :=
  { carriage := 0, tape := 0, state := "", startState := "Q1", terminalState := "Q0",
    alphabet := [' '], program := leftProg, steps := 0, maxTapeLength := 10, maxSteps := 10000 }

/-- Initial heap for the failing run: the caller's (empty) input mapping at
reference 0. -/
def c1ErrHeap : Heap := [[]]

/-- The machine after the failing run: ten steps taken, tape full, still in
`Q1` when `TapeOver` fires. -/
def c1TapeOverMachine : MachineR :=
  { carriage := -10, tape := 1, state := "Q1", startState := "Q1", terminalState := "Q0",
    alphabet := [' '], program := leftProg, steps := 10, maxTapeLength := 10, maxSteps := 10000 }

/-- The heap after the failing run: the caller's mapping at reference 0 is
still untouched; the fresh tape at reference 1 holds the ten written blanks. -/
def c1TapeOverHeap : Heap :=
  [[], [((0 : Int), ' '), (-1, ' '), (-2, ' '), (-3, ' '), (-4, ' '), (-5, ' '),
    (-6, ' '), (-7, ' '), (-8, ' '), (-9, ' ')]]

/-- A mid-run configuration of the increment machine (state `Q1`, a one under
the carriage) used to exercise `step` at a successful step. -/
def c9M : Machine :=
  { carriage := 0, tape := [((0 : Int), '1')], state := "Q1", startState := "Q1",
    terminalState := "Q0", alphabet := ['1', ' '], program := incProg, steps := 0,
    maxTapeLength := 20, maxSteps := 10 }

/-- The configuration one `step` after `c9M`: same tape contents, carriage
moved left, one step counted. -/
def c9M' : Machine :=
  { carriage := -1, tape := [((0 : Int), '1')], state := "Q1", startState := "Q1",
    terminalState := "Q0", alphabet := ['1', ' '], program := incProg, steps := 1,
    maxTapeLength := 20, maxSteps := 10 }

/-- A configuration whose next step writes a one, enters the terminal state
`Q0`, and fills the tape to the 1-cell limit — so the guard, not the halt
check, decides the outcome. -/
def c10M : Machine :=
  { carriage := 0, tape := [], state := "Q1", startState := "Q1", terminalState := "Q0",
    alphabet := [' ', '1'], program := [("Q1", [(' ', ⟨"Q0", Stay, '1'⟩)])], steps := 0,
    maxTapeLength := 1, maxSteps := 0 }

/-- A direction-table iteration order opposite to the declaration order:
`'.'` is probed first.  Go may use this order for a given `range` loop. -/
def ordFlip : List (Char × Int) := [('.', Stay), ('<', Left), ('>', Right)]

/-- Input whose single transition field `"1>.2"` contains two separator
characters: which one wins depends on the direction-table iteration order. -/
def c7Demo : List String := ["\tQ1", "1\t1>.2"]

/-- A well-formed input whose fields each contain at most one separator
kind — reading it is order-independent. -/
def c7Good : List String := ["\tQ1", "1\t1>2"]

/-- A table row carrying two non-empty transition fields under a header that
declares a single state: `states[1]` is out of bounds. -/
def c8Input : List String := ["\tQ1", "1\t1>2\t1>3"]

/-- Lookup after `insertA` at the inserted key: the written value is there
(in particular an explicitly written blank occupies its cell). -/
theorem alookup_insertA_self {α β : Type} [DecidableEq α] (t : List (α × β)) (i : α) (c : β) :
    alookup (insertA t i c) i = some c := by
  induction t with
  | nil => simp [insertA, alookup]
  | cons p rest ih =>
    obtain ⟨a, b⟩ := p
    by_cases h : i = a
    · simp [insertA, h, alookup]
    · simp [insertA, h, alookup, ih]

/-- Lookup after `insertA` at a different key is unchanged. -/
theorem alookup_insertA_ne {α β : Type} [DecidableEq α] (t : List (α × β)) (i k : α) (c : β)
    (h : k ≠ i) : alookup (insertA t i c) k = alookup t k := by
  induction t with
  | nil => simp [insertA, alookup, h]
  | cons p rest ih =>
    obtain ⟨a, b⟩ := p
    by_cases ha : i = a
    · subst ha
      simp [insertA, alookup, h]
    · by_cases hk : k = a
      · simp [insertA, alookup, ha, hk]
      · simp [insertA, alookup, ha, hk, ih]

/-- `insertA` never shrinks a map. -/
theorem length_le_insertA {α β : Type} [DecidableEq α] (t : List (α × β)) (i : α) (c : β) :
    t.length ≤ (insertA t i c).length := by
  induction t with
  | nil => simp [insertA]
  | cons p rest ih =>
    obtain ⟨a, b⟩ := p
    by_cases h : i = a
    · simp [insertA, h]
    · simpa [insertA, h] using ih

/-- `insertA` never removes a key. -/
theorem isSome_alookup_insertA {α β : Type} [DecidableEq α] (t : List (α × β)) (i k : α) (c : β)
    (h : (alookup t k).isSome = true) : (alookup (insertA t i c) k).isSome = true := by
  by_cases hk : k = i
  · subst hk
    rw [alookup_insertA_self]
    rfl
  · rw [alookup_insertA_ne t i k c hk]
    exact h

/-- C5: the left-infinite-blank program `{Q1: {' ': (Q1, Left, ' ')}}` run on
an empty tape from carriage 0 fails with `StepsExceeded` under max steps 10 /
max tape 10000, fails with `TapeOver` under max tape 10 / max steps 10000, and
its `Stay` variant with max steps 0 (unlimited) fails with `InfiniteLoop`.
Each conjunct pins the machine `NewMachine` builds and evaluates the run. -/
theorem limit_errors_spec :
    (newMachine "" "Q1" "Q0" leftProg 10000 10 = .ok leftMachineA ∧
      execCtx leftMachineA 0 [] 20 = some (.error .stepsExceeded)) ∧
    (newMachine "" "Q1" "Q0" leftProg 10 10000 = .ok leftMachineB ∧
      execCtx leftMachineB 0 [] 20 = some (.error .tapeOver)) ∧
    (newMachine "" "Q1" "Q0" stayProg 10000 0 = .ok stayMachineC ∧
      execCtx stayMachineC 0 [] 5 = some (.error .infiniteLoop)) := by
  decide

/-- C8: evaluating `ReadCtx` at a table row with more non-empty transition
fields than header states: the unchecked `states[stateIndex]` index is out of
bounds and Go panics (modelled by `Err.panicIndexOutOfRange`) instead of
returning a `Program` or an error — the claimed totality fails here. -/
theorem readCtx_panics_on_wide_row :
    ReadCtx c8Input = .error .panicIndexOutOfRange := by
  decide

set_option synthInstance.maxSize 512 in
/-- C1 counterexample: running the increment machine on the caller's mapping
`{0: '1'}` (reference 0) halts successfully and returns reference 1 — and the
machine's own tape field also holds reference 1.  The returned final tape is
therefore not "a new mapping with no retained alias to the machine's internal
state": it is the machine's internal tape itself (Go's `return m.tape, nil`),
so mutating the result mutates the mapping the machine's tape field points to. -/
theorem execCtx_returns_machine_tape_alias :
    execCtxR c1Heap incMachineR 0 0 10 = some (.ok 1, c1FinalMachine, c1FinalHeap) ∧
    c1FinalMachine.tape = 1 := by
  decide

/-- C7 counterexample: on the input whose transition field `"1>.2"` contains
two separator characters, two runs of `ReadCtx` that observe different
iteration orders of the direction-table map (both permutations Go may use)
each succeed but return different `Program` values — one records
`(next Q.2, Right, '1')`, the other `(next Q2, Stay, '1')`.  Reading the same
input twice is therefore not deterministic. -/
theorem readCtx_order_dependent :
    directionTable ∈ validOrds ∧ ordFlip ∈ validOrds ∧
    isOkE (readCtxOrd directionTable c7Demo) = true ∧
    isOkE (readCtxOrd ordFlip c7Demo) = true ∧
    readCtxOrd directionTable c7Demo ≠ readCtxOrd ordFlip c7Demo := by
  decide

/-- C2: a single `step` fails with `InfiniteLoop` if and only if the machine is
not already halted, the read symbol is in the alphabet, and the looked-up
transition is the one-step no-op self-transition: it writes the symbol
currently read, moves `Stay`, and its next state equals the current state.  In
every other situation `step` applies the transition or fails with a different
error kind, so longer multi-step cycles never trigger this guard. -/
theorem step_infiniteLoop_iff (m : Machine) :
    step m = .error .infiniteLoop ↔
      m.state ≠ m.terminalState ∧ m.alphabet.contains (read m) = true ∧
      ∃ t, progLookup m.program m.state (read m) = some t ∧
        t.move = Stay ∧ t.nextState = m.state ∧ t.write = read m := by
  unfold step
  by_cases h1 : m.state = m.terminalState
  · simp [h1]
  · rw [if_neg h1]
    by_cases h2 : m.alphabet.contains (read m) = true
    · rw [if_pos h2]
      cases h3 : progLookup m.program m.state (read m) with
      | none =>
        dsimp only
        constructor
        · intro h; simp at h
        · rintro ⟨-, -, t', ht', -⟩
          simp at ht'
      | some t =>
        dsimp only
        by_cases h4 : t.move = Stay ∧ t.nextState = m.state ∧ t.write = read m
        · rw [if_pos h4]
          exact ⟨fun _ => ⟨h1, h2, t, rfl, h4.1, h4.2.1, h4.2.2⟩, fun _ => rfl⟩
        · rw [if_neg h4]
          constructor
          · intro h
            split at h
            · simp at h
            · split at h
              · simp at h
              · simp at h
          · rintro ⟨-, -, t', ht', hm, hn, hw⟩
            cases ht'
            exact absurd ⟨hm, hn, hw⟩ h4
    · rw [if_neg h2]
      constructor
      · intro h; simp at h
      · rintro ⟨-, hc, -⟩
        exact absurd hc h2

/-- C9: occupied tape cells never shrink.  A successful `step` preserves the
occupied-cell count and every occupied key (the halt branch leaves the tape
untouched, the continue branch writes through `insertA`); `insertA` itself
stores the written symbol at its cell even when that symbol is the blank, so
an explicitly written blank occupies a cell and counts toward the tape-length
guard (`step` compares the post-write `m.tape.length`); and `insertA` never
removes a cell. -/
theorem step_tape_monotone :
    (∀ (m : Machine) (b : Bool) (m' : Machine), step m = .ok (b, m') →
      m.tape.length ≤ m'.tape.length ∧
      ∀ k, (alookup m.tape k).isSome = true → (alookup m'.tape k).isSome = true) ∧
    (∀ (t : Tape) (i : Int) (c : Char), alookup (insertA t i c) i = some c) ∧
    (∀ (t : Tape) (i : Int) (c : Char), t.length ≤ (insertA t i c).length) ∧
    (∀ (t : Tape) (i : Int) (c : Char) (k : Int),
      (alookup t k).isSome = true → (alookup (insertA t i c) k).isSome = true) := by
  refine ⟨?_, fun t i c => alookup_insertA_self t i c,
    fun t i c => length_le_insertA t i c,
    fun t i c k h => isSome_alookup_insertA t i k c h⟩
  intro m b m' h
  unfold step at h
  split at h
  · cases h
    exact ⟨le_refl _, fun k hk => hk⟩
  · split at h
    · split at h
      · exact (Except.noConfusion h)
      · split at h
        · exact (Except.noConfusion h)
        · dsimp only at h
          split at h
          · exact (Except.noConfusion h)
          · split at h
            · exact (Except.noConfusion h)
            · cases h
              exact ⟨length_le_insertA _ _ _,
                fun k hk => isSome_alookup_insertA _ _ _ _ hk⟩
    · exact (Except.noConfusion h)

/-- Witness for C9: a concrete successful step of the increment machine
(configuration `c9M`, one `'1'` on the tape) reaches `c9M'` without shrinking
the tape or dropping the occupied cell 0. -/
theorem step_tape_monotone_witness :
    c9M.tape.length ≤ c9M'.tape.length ∧ (alookup c9M'.tape 0).isSome = true :=
  ⟨(step_tape_monotone.1 c9M true c9M' (by decide)).1,
   (step_tape_monotone.1 c9M true c9M' (by decide)).2 0 (by decide)⟩

/-- C10: the limit guards take precedence over halting.  When the looked-up
transition leads to the terminal state (and the step is otherwise applicable),
`step` still fails with `TapeOver` if the post-write occupied-cell count
reaches the maximum tape length, and otherwise with `StepsExceeded` if a
positive step limit is reached by the incremented counter — and any `step`
error makes the run loop return that error with no final tape, because the
successful-halt check only runs at the start of the next step. -/
theorem step_guards_precede_halt (m : Machine) (t : Transition)
    (hterm : m.state ≠ m.terminalState)
    (halpha : m.alphabet.contains (read m) = true)
    (hlook : progLookup m.program m.state (read m) = some t)
    (hguard : ¬(t.move = Stay ∧ t.nextState = m.state ∧ t.write = read m))
    (hnext : t.nextState = m.terminalState) :
    (m.maxTapeLength ≤ (insertA m.tape m.carriage t.write).length →
      step m = .error .tapeOver) ∧
    ((insertA m.tape m.carriage t.write).length < m.maxTapeLength →
      0 < m.maxSteps → m.maxSteps ≤ m.steps + 1 → step m = .error .stepsExceeded) ∧
    (∀ fuel e, step m = .error e → runFuel (fuel + 1) m = some (.error e)) := by
  have hred : step m =
      (if m.maxTapeLength ≤ (insertA m.tape m.carriage t.write).length then
        .error .tapeOver
      else if 0 < m.maxSteps ∧ m.maxSteps ≤ m.steps + 1 then
        .error .stepsExceeded
      else
        .ok (true, applyTransition m t)) := by
    unfold step
    rw [if_neg hterm, if_pos halpha, hlook]
    dsimp only
    rw [if_neg hguard]
    rfl
  refine ⟨fun hlen => ?_, fun hlen h1 h2 => ?_, fun fuel e he => ?_⟩
  · rw [hred, if_pos hlen]
  · rw [hred, if_neg (not_le.mpr hlen), if_pos ⟨h1, h2⟩]
  · unfold runFuel
    rw [he]

/-- Witness for C10: at configuration `c10M` the transition into the terminal
state `Q0` fills the tape to its 1-cell limit, and the step fails with
`TapeOver` instead of letting the next step halt. -/
theorem step_guards_precede_halt_witness : step c10M = .error .tapeOver :=
  (step_guards_precede_halt c10M ⟨"Q0", Stay, '1'⟩ (by decide) (by decide) (by decide)
    (by decide) (by decide)).1 (by decide)

/-- C3: `ParseTransition` maps `"1>2"`, `"1<3"`, `"1.2"` to the claimed
transitions, fails with `ParseTransition` on `""`, `"Q2"`, `"Q2>"`, `"1!2"`,
and normalizes an underscore in the symbol part to the blank `' '` in the
returned write field (concretely on `"_>2"`, and in general no successful
parse ever returns `'_'` as the write symbol). -/
theorem parseTransition_spec :
    ParseTransition "1>2" = .ok ⟨"Q2", Right, '1'⟩ ∧
    ParseTransition "1<3" = .ok ⟨"Q3", Left, '1'⟩ ∧
    ParseTransition "1.2" = .ok ⟨"Q2", Stay, '1'⟩ ∧
    ParseTransition "" = .error .parseTransition ∧
    ParseTransition "Q2" = .error .parseTransition ∧
    ParseTransition "Q2>" = .error .parseTransition ∧
    ParseTransition "1!2" = .error .parseTransition ∧
    ParseTransition "_>2" = .ok ⟨"Q2", Right, ' '⟩ ∧
    (∀ (f : String) (t : Transition), ParseTransition f = .ok t → t.write ≠ '_') := by
  refine ⟨by decide, by decide, by decide, by decide, by decide, by decide, by decide,
    by decide, ?_⟩
  intro f t h
  unfold ParseTransition parseTransitionOrd at h
  split at h
  · exact Except.noConfusion h
  · dsimp only at h
    split at h
    · exact Except.noConfusion h
    · cases h
      dsimp only
      split
      · exact (by decide : (' ' : Char) ≠ '_')
      · assumption

/-- Witness for C3's general conjunct: applying it to the parse of `"_>2"`
shows the returned write field is not the underscore. -/
theorem parseTransition_spec_witness : (Transition.mk "Q2" Right ' ').write ≠ '_' :=
  parseTransition_spec.2.2.2.2.2.2.2.2 "_>2" ⟨"Q2", Right, ' '⟩ (by decide)

/-- One entry of `Program.Validate` passes exactly when its move is one of
`{Left, Right, Stay}`, its write symbol is in the alphabet, and its next state
is the terminal state or a program key. -/
theorem validateEntry_none_iff (tp : Program) (a : List Char) (terminal : String)
    (t : Transition) :
    validateEntry tp a terminal t = none ↔
      (t.move = Left ∨ t.move = Right ∨ t.move = Stay) ∧
      a.contains t.write = true ∧
      (t.nextState = terminal ∨ (alookup tp t.nextState).isSome = true) := by
  unfold validateEntry
  by_cases h1 : t.move = Left ∨ t.move = Right ∨ t.move = Stay
  · by_cases h2 : t.write ∈ a
    · by_cases h3 : t.nextState = terminal
      · simp [h1, h2, h3]
      · by_cases h4 : (alookup tp t.nextState).isSome = true
        · simp [h1, h2, h3, h4]
        · simp [h1, h2, h3, h4]
    · simp [h1, h2]
  · simp [h1]

/-- The inner validation loop reports no error exactly when every entry of the
row passes. -/
theorem validateRow_none_iff (tp : Program) (a : List Char) (terminal : String)
    (ts : List (Char × Transition)) :
    validateRow tp a terminal ts = none ↔
      ∀ c t, (c, t) ∈ ts → validateEntry tp a terminal t = none := by
  induction ts with
  | nil => simp [validateRow]
  | cons p rest ih =>
    obtain ⟨c, t⟩ := p
    unfold validateRow
    cases h : validateEntry tp a terminal t with
    | some e =>
      dsimp only
      constructor
      · intro hc; exact absurd hc (by simp)
      · intro hall
        have hx := hall c t (List.mem_cons_self _ _)
        rw [h] at hx
        exact absurd hx (by simp)
    | none =>
      dsimp only
      rw [ih]
      constructor
      · intro hall c' t' hmem
        rcases List.mem_cons.mp hmem with heq | hmem'
        · cases heq; exact h
        · exact hall c' t' hmem'
      · intro hall c' t' hmem
        exact hall c' t' (List.mem_cons_of_mem _ hmem)

/-- The outer validation loop reports no error exactly when every row passes. -/
theorem validateAux_none_iff (tp : Program) (a : List Char) (terminal : String)
    (l : Program) :
    validateAux tp a terminal l = none ↔
      ∀ s ts, (s, ts) ∈ l → validateRow tp a terminal ts = none := by
  induction l with
  | nil => simp [validateAux]
  | cons p rest ih =>
    obtain ⟨s, ts⟩ := p
    unfold validateAux
    cases h : validateRow tp a terminal ts with
    | some e =>
      dsimp only
      constructor
      · intro hc; exact absurd hc (by simp)
      · intro hall
        have hx := hall s ts (List.mem_cons_self _ _)
        rw [h] at hx
        exact absurd hx (by simp)
    | none =>
      dsimp only
      rw [ih]
      constructor
      · intro hall s' ts' hmem
        rcases List.mem_cons.mp hmem with heq | hmem'
        · cases heq; exact h
        · exact hall s' ts' hmem'
      · intro hall s' ts' hmem
        exact hall s' ts' (List.mem_cons_of_mem _ hmem)

/-- C4: `Program.Validate` succeeds exactly when every (state, symbol) entry
has a move in `{Left, Right, Stay}`, a write symbol in the (blank-augmented)
alphabet, and a next state that is the terminal state or a program key; and
per entry the checks fire in source order with the claimed error kinds:
`InvalidMoveDirection` for a bad move, else `UnexpectedSymbol` for a write
symbol outside the alphabet, else no further check when the next state is
terminal, else `StateNotFound` when the next state is not a program key. -/
theorem validate_spec (tp : Program) (a : List Char) (terminal : String) :
    (validate tp a terminal = none ↔
      ∀ s ts, (s, ts) ∈ tp → ∀ c t, (c, t) ∈ ts →
        (t.move = Left ∨ t.move = Right ∨ t.move = Stay) ∧
        a.contains t.write = true ∧
        (t.nextState = terminal ∨ (alookup tp t.nextState).isSome = true)) ∧
    (∀ t : Transition, ¬(t.move = Left ∨ t.move = Right ∨ t.move = Stay) →
      validateEntry tp a terminal t = some .invalidMoveDirection) ∧
    (∀ t : Transition, (t.move = Left ∨ t.move = Right ∨ t.move = Stay) →
      ¬(a.contains t.write = true) →
      validateEntry tp a terminal t = some .unexpectedSymbol) ∧
    (∀ t : Transition, (t.move = Left ∨ t.move = Right ∨ t.move = Stay) →
      a.contains t.write = true → t.nextState = terminal →
      validateEntry tp a terminal t = none) ∧
    (∀ t : Transition, (t.move = Left ∨ t.move = Right ∨ t.move = Stay) →
      a.contains t.write = true → t.nextState ≠ terminal →
      (alookup tp t.nextState).isSome = false →
      validateEntry tp a terminal t = some .stateNotFound) := by
  refine ⟨?_, ?_, ?_, ?_, ?_⟩
  · unfold validate
    rw [validateAux_none_iff]
    constructor
    · intro hall s ts hmem c t hmem'
      exact (validateEntry_none_iff tp a terminal t).mp
        ((validateRow_none_iff tp a terminal ts).mp (hall s ts hmem) c t hmem')
    · intro hall s ts hmem
      rw [validateRow_none_iff]
      intro c t hmem'
      exact (validateEntry_none_iff tp a terminal t).mpr (hall s ts hmem c t hmem')
  · intro t h1
    unfold validateEntry
    rw [if_pos h1]
  · intro t h1 h2
    unfold validateEntry
    rw [if_neg (not_not_intro h1), if_pos h2]
  · intro t h1 h2 h3
    unfold validateEntry
    rw [if_neg (not_not_intro h1), if_neg (not_not_intro h2), if_pos h3]
  · intro t h1 h2 h3 h4
    unfold validateEntry
    rw [if_neg (not_not_intro h1), if_neg (not_not_intro h2), if_neg h3,
      if_neg (by rw [h4]; exact Bool.false_ne_true)]

/-- Witness for C4: a transition with move `5` (not a direction) is rejected
with `InvalidMoveDirection`. -/
theorem validate_spec_witness :
    validateEntry [] [] "Q0" ⟨"Q9", 5, 'x'⟩ = some .invalidMoveDirection :=
  (validate_spec [] [] "Q0").2.1 ⟨"Q9", 5, 'x'⟩ (by decide)

set_option synthInstance.maxSize 1024 in
/-- C6: for every `n` in `0..9`, the increment machine
(`NewMachine("1", "Q1", "Q0", incProg, 20, 10)`) run from carriage 0 on a tape
holding `n + 1` ones at cells `0..n` halts successfully, and the returned tape
is exactly the expected one: `n + 2` occupied cells, all holding `'1'`
(the input cells plus a one written at cell `-1`). -/
theorem increment_machine_spec :
    ∀ n, n < 10 →
      newMachine "1" "Q1" "Q0" incProg 20 10 = .ok incMachine ∧
      execCtx incMachine 0 (inputOnes n) 15 = some (.ok (c6Expected n)) ∧
      (c6Expected n).length = n + 2 ∧
      ∀ p ∈ c6Expected n, p.2 = '1' := by
  decide

set_option synthInstance.maxSize 1024 in
/-- Witness for C6 at `n = 3`. -/
theorem increment_machine_spec_witness :
    newMachine "1" "Q1" "Q0" incProg 20 10 = .ok incMachine ∧
    execCtx incMachine 0 (inputOnes 3) 15 = some (.ok (c6Expected 3)) ∧
    (c6Expected 3).length = 3 + 2 ∧
    ∀ p ∈ c6Expected 3, p.2 = '1' :=
  increment_machine_spec 3 (by decide)

/-- Updating one heap cell leaves every other cell unchanged. -/
theorem heapLookup_heapSet_ne (h : Heap) (i r : Nat) (v : Tape) (hne : r ≠ i) :
    heapLookup (heapSet h i v) r = heapLookup h r := by
  induction h generalizing i r with
  | nil => rfl
  | cons t rest ih =>
    cases i with
    | zero =>
      cases r with
      | zero => exact absurd rfl hne
      | succ r' => rfl
    | succ i' =>
      cases r with
      | zero => rfl
      | succ r' => exact ih i' r' (fun he => hne (by rw [he]))

/-- Allocation at the end of the heap leaves existing cells readable
unchanged. -/
theorem heapLookup_append_lt (h h₂ : Heap) (r : Nat) (hr : r < h.length) :
    heapLookup (h ++ h₂) r = heapLookup h r := by
  induction h generalizing r with
  | nil => exact absurd hr (Nat.not_lt_zero r)
  | cons t rest ih =>
    cases r with
    | zero => rfl
    | succ r' => exact ih r' (Nat.lt_of_succ_lt_succ hr)

/-- `step` and `stepM` are the same Go function: `step`'s result is
`stepM`'s with the mutated receiver dropped on errors. -/
theorem step_eq_stepM (m : Machine) :
    step m = (match stepM m with
      | (.ok b, mm) => .ok (b, mm)
      | (.error e, _) => .error e) := by
  unfold step stepM
  split
  · rfl
  · split
    · split
      · rfl
      · split
        · rfl
        · dsimp only
          split
          · rfl
          · split
            · rfl
            · rfl
    · rfl

/-- Invariant of the heap-model execution loop, for every returning run —
halting or failing: the machine's tape reference never changes, all heap
writes go through it (so every other heap cell, in particular the caller's
input mapping, is untouched), and on halt that same reference is what gets
returned. -/
theorem loopR_frame (inp : Nat) :
    ∀ (fuel : Nat) (h : Heap) (m : MachineR) (res : Except Err Nat) (m' : MachineR) (h' : Heap),
      m.tape ≠ inp →
      loopR fuel h m = some (res, m', h') →
      heapLookup h' inp = heapLookup h inp ∧ m'.tape = m.tape ∧
      ∀ ret, res = .ok ret → ret = m'.tape := by
  intro fuel
  induction fuel with
  | zero =>
    intro h m res m' h' _ hrun
    exact Option.noConfusion hrun
  | succ fuel ih =>
    intro h m res m' h' htape hrun
    unfold loopR at hrun
    rcases hstep : stepR h m with ⟨flag, m2, h2⟩
    rw [hstep] at hrun
    have hfacts : m2.tape = m.tape ∧ ∃ v, h2 = heapSet h m.tape v := by
      unfold stepR at hstep
      dsimp only at hstep
      cases hstep
      exact ⟨rfl, _, rfl⟩
    obtain ⟨hm2, v, hh2⟩ := hfacts
    have hframe : heapLookup h2 inp = heapLookup h inp := by
      rw [hh2]
      exact heapLookup_heapSet_ne h m.tape inp v (Ne.symm htape)
    cases flag with
    | error e =>
      simp only [Option.some.injEq, Prod.mk.injEq] at hrun
      obtain ⟨hr1, hr2, hr3⟩ := hrun
      subst hr2 hr3
      exact ⟨hframe, hm2, fun ret hret => by rw [← hr1] at hret; exact Except.noConfusion hret⟩
    | ok b =>
      cases b with
      | false =>
        simp only [Option.some.injEq, Prod.mk.injEq] at hrun
        obtain ⟨hr1, hr2, hr3⟩ := hrun
        subst hr2 hr3
        refine ⟨hframe, hm2, fun ret hret => ?_⟩
        rw [← hr1] at hret
        cases hret
        rfl
      | true =>
        have htape2 : m2.tape ≠ inp := by rw [hm2]; exact htape
        obtain ⟨r1, r2, r3⟩ := ih h2 m2 res m' h' htape2 hrun
        exact ⟨r1.trans hframe, r2.trans hm2, r3⟩

/-- C1 (amended): frame properties of `ExecCtx` in the heap model, for every
returning run, successful or failing.  The caller's input mapping is never
mutated — it is copied into a freshly allocated tape at run start and all
writes (including those of a run that then fails with `StepsExceeded`,
`TapeOver`, ...) go through the fresh reference.  On successful halt the
returned tape is a different mapping than the caller's input — but it is
**not** alias-free: the returned reference is exactly the machine's retained
tape reference (`return m.tape`), which is the corrected form of the claim's
"no retained alias to the machine's internal state". -/
theorem execCtxR_frame (h : Heap) (m : MachineR) (c : Int) (inp : Nat) (fuel : Nat)
    (hin : inp < h.length) (res : Except Err Nat) (m' : MachineR) (h' : Heap)
    (hrun : execCtxR h m c inp fuel = some (res, m', h')) :
    heapLookup h' inp = heapLookup h inp ∧
    ∀ ret, res = .ok ret → ret ≠ inp ∧ ret = m'.tape := by
  unfold execCtxR at hrun
  dsimp only at hrun
  have hne : ({ m with carriage := c, state := m.startState, steps := 0, tape := h.length } : MachineR).tape ≠ inp :=
    fun he => absurd hin (by rw [← he]; exact Nat.lt_irrefl _)
  obtain ⟨r1, r2, r3⟩ := loopR_frame inp fuel
    (h ++ [(heapLookup h inp).getD []])
    { m with carriage := c, state := m.startState, steps := 0, tape := h.length }
    res m' h' hne hrun
  refine ⟨r1.trans (heapLookup_append_lt h _ inp hin), fun ret hret => ?_⟩
  have hr := r3 ret hret
  have hlen : ret = h.length := hr.trans r2
  refine ⟨?_, hr⟩
  rw [hlen]
  exact fun he => absurd hin (by rw [he]; exact Nat.lt_irrefl _)

set_option synthInstance.maxSize 1024 in
/-- Witness for C1's amended theorem, at a successful run (the aliasing run:
input unchanged, returned reference fresh w.r.t. the input and equal to the
machine's tape reference) and at a failing run (the `TapeOver` run: the
caller's input mapping is unchanged although ten writes happened). -/
theorem execCtxR_frame_witness :
    (heapLookup c1FinalHeap 0 = heapLookup c1Heap 0 ∧ (1 : Nat) ≠ 0 ∧
      (1 : Nat) = c1FinalMachine.tape) ∧
    heapLookup c1TapeOverHeap 0 = heapLookup c1ErrHeap 0 :=
  ⟨⟨(execCtxR_frame c1Heap incMachineR 0 0 10 (by decide) (.ok 1) c1FinalMachine c1FinalHeap
      (by decide)).1,
    ((execCtxR_frame c1Heap incMachineR 0 0 10 (by decide) (.ok 1) c1FinalMachine c1FinalHeap
      (by decide)).2 1 rfl).1,
    ((execCtxR_frame c1Heap incMachineR 0 0 10 (by decide) (.ok 1) c1FinalMachine c1FinalHeap
      (by decide)).2 1 rfl).2⟩,
   (execCtxR_frame c1ErrHeap leftMachineBR 0 0 20 (by decide) (.error .tapeOver)
      c1TapeOverMachine c1TapeOverHeap (by decide)).1⟩

/-- On a field containing at most one separator kind, every possible
iteration order of the direction-table map finds the same separator. -/
theorem findSep_eq (ord : List (Char × Int)) (hord : ord ∈ validOrds) (f : String)
    (hf : sepCount f ≤ 1) :
    ord.find? (fun p => containsCh f p.1) = directionTable.find? (fun p => containsCh f p.1) := by
  have hords : ord = [('>', Right), ('<', Left), ('.', Stay)] ∨
      ord = [('>', Right), ('.', Stay), ('<', Left)] ∨
      ord = [('<', Left), ('>', Right), ('.', Stay)] ∨
      ord = [('<', Left), ('.', Stay), ('>', Right)] ∨
      ord = [('.', Stay), ('>', Right), ('<', Left)] ∨
      ord = [('.', Stay), ('<', Left), ('>', Right)] := by
    simpa [validOrds] using hord
  cases h1 : containsCh f '>' <;> cases h2 : containsCh f '<' <;> cases h3 : containsCh f '.' <;>
    first
      | (rcases hords with rfl | rfl | rfl | rfl | rfl | rfl <;>
          (simp [directionTable, List.find?, h1, h2, h3]; done))
      | (simp [sepCount, h1, h2, h3] at hf)

/-- On a field containing at most one separator kind, `ParseTransition`
returns the same result under every direction-table iteration order. -/
theorem parseOrd_eq (ord : List (Char × Int)) (hord : ord ∈ validOrds) (f : String)
    (hf : sepCount f ≤ 1) :
    parseTransitionOrd ord f = parseTransitionOrd directionTable f := by
  unfold parseTransitionOrd
  rw [findSep_eq ord hord f hf]

/-- Row processing is order-invariant when every non-empty field of the row
(the fields actually handed to `ParseTransition`) contains at most one
separator kind. -/
theorem processRow_eq (ord : List (Char × Int)) (hord : ord ∈ validOrds)
    (states : List String) (symbol : Char) :
    ∀ (fs : List String) (idx : Nat) (p : Program),
      (∀ f ∈ fs, f ≠ "" → sepCount f ≤ 1) →
      processRow ord p states symbol idx fs = processRow directionTable p states symbol idx fs := by
  intro fs
  induction fs with
  | nil => intro idx p _; rfl
  | cons f rest ih =>
    intro idx p hgood
    unfold processRow
    by_cases hf : f = ""
    · rw [if_pos hf, if_pos hf]
      exact ih (idx + 1) p (fun g hg => hgood g (List.mem_cons_of_mem _ hg))
    · rw [if_neg hf, if_neg hf]
      rw [parseOrd_eq ord hord f (hgood f (List.mem_cons_self _ _) hf)]
      cases hp : parseTransitionOrd directionTable f with
      | error e => rfl
      | ok t =>
        dsimp only
        cases hst : states.get? idx with
        | none => rfl
        | some st =>
          exact ih (idx + 1) (progInsert p st symbol t)
            (fun g hg => hgood g (List.mem_cons_of_mem _ hg))

/-- The whole scanner loop is order-invariant when every transition field it
parses (per `transFieldsOK`, threaded through the same control flow) contains
at most one separator kind. -/
theorem readLinesLoop_eq (ord : List (Char × Int)) (hord : ord ∈ validOrds) :
    ∀ (lines : List String) (st : ReadState),
      transFieldsOK lines st.inScope = true →
      readLinesLoop ord lines st = readLinesLoop directionTable lines st := by
  intro lines
  induction lines with
  | nil => intro st _; rfl
  | cons line rest ih =>
    intro st hgood
    unfold readLinesLoop
    unfold transFieldsOK at hgood
    dsimp only
    dsimp only at hgood
    by_cases h1 : splitCh line '\t' = []
    · rw [if_pos h1, if_pos h1]
      rw [if_pos h1] at hgood
      exact ih st hgood
    · rw [if_neg h1, if_neg h1]
      rw [if_neg h1] at hgood
      by_cases h2 : st.inScope = false
      · rw [if_pos h2, if_pos h2]
        rw [if_pos h2] at hgood
        by_cases h3 : 1 < (splitCh line '\t').length ∧
            hasQdigit (joinSpaceChars (splitCh line '\t').tail) = true
        · rw [if_pos h3, if_pos h3]
          rw [if_pos h3] at hgood
          exact ih _ hgood
        · rw [if_neg h3, if_neg h3]
          rw [if_neg h3] at hgood
          exact ih st (by rw [h2]; exact hgood)
      · rw [if_neg h2, if_neg h2]
        rw [if_neg h2] at hgood
        by_cases h4 : (splitCh line '\t').headD "" = ""
        · rw [if_pos h4, if_pos h4]
          rw [if_pos h4] at hgood
          exact ih st hgood
        · rw [if_neg h4, if_neg h4]
          rw [if_neg h4] at hgood
          obtain ⟨hall, hrest⟩ := Bool.and_eq_true_iff.mp hgood
          have hfields : ∀ f ∈ (splitCh line '\t').tail, f ≠ "" → sepCount f ≤ 1 := by
            intro f hf hne
            have hp := List.all_eq_true.mp hall f hf
            rcases Bool.or_eq_true_iff.mp hp with hb | hb
            · exact absurd (eq_of_beq hb) hne
            · exact of_decide_eq_true hb
          rw [processRow_eq ord hord st.states (firstChar ((splitCh line '\t').headD ""))
            (splitCh line '\t').tail 0 st.program hfields]
          cases hp : processRow directionTable st.program st.states
              (firstChar ((splitCh line '\t').headD "")) 0 (splitCh line '\t').tail with
          | error e => rfl
          | ok p =>
            dsimp only
            exact ih _ hrest

/-- C7 (amended): `ReadCtx` is deterministic on inputs whose transition
fields — the non-empty fields `ReadCtx` actually hands to `ParseTransition`,
that is, the fields after the symbol column of in-scope table rows — each
contain at most one of the three separator characters `{>, <, .}`: two
invocations observing any two iteration orders of the direction-table map
return identical results, so if one succeeds both succeed with equal
`Program` values.  Comment lines, the header row and symbol columns are
unconstrained.  (Without the restriction on transition fields determinism
fails, see the counterexample.) -/
theorem readCtx_ord_invariance (ord₁ ord₂ : List (Char × Int))
    (h₁ : ord₁ ∈ validOrds) (h₂ : ord₂ ∈ validOrds) (lines : List String)
    (hgood : transFieldsOK lines false = true) :
    readCtxOrd ord₁ lines = readCtxOrd ord₂ lines := by
  unfold readCtxOrd
  rw [readLinesLoop_eq ord₁ h₁ lines _ hgood, readLinesLoop_eq ord₂ h₂ lines _ hgood]

/-- Witness for C7's amended theorem: reading the single-separator input
`c7Good` under the flipped order and the declaration order gives equal
results. -/
theorem readCtx_ord_invariance_witness :
    readCtxOrd ordFlip c7Good = readCtxOrd directionTable c7Good :=
  readCtx_ord_invariance ordFlip directionTable (by decide) (by decide) c7Good (by decide)

end GoTuring
